import Mathlib

/-
Shallow embedding of the mcan CAN segmentation/reassembly protocol from
include/float_int16.hpp (namespace mcan), together with the Status result
type from include/mc_firmware/status.hpp and the CanFrame wire type from
include/mc_firmware/can_base.hpp.

Modelling conventions:
  - machine integers are Nat with explicit reductions where the C++ code
    truncates: uint8 casts are `% 256`, the uint32 shift in
    mcan_connect_msg_id_with_node_id is `% 2 ^ 32`, and the size_t
    subtraction `frame.size - 1` is `(frame.size + (2 ^ 64 - 1)) % 2 ^ 64`
    (two-complement wraparound of the C++ unsigned subtraction);
  - a record value of byte size sz is its raw byte image, a function
    `Nat → Nat` meaningful on positions < sz (the templates T / T::value of
    the source are erased to the explicit size parameter sz = sizeof(T),
    with sizeof(T) = sizeof(T::value) as in the single-member record types
    the header is written for);
  - std::memcpy becomes the pointwise splice `memcpy`;
  - std::bitset<N> becomes a function `Nat → Bool` with reset / set / all
    translated one-for-one (the all() test ranges over the N tracked bits);
  - the C++ Status carries a code and a message; operator== and ok()
    compare only the code, so Status is embedded as its StatusCode;
  - the CanBase::send virtual capability becomes a function argument
    `send : CanFrame → Status`; mcan_pack_send_msg returns, next to the
    Status the C++ function returns, the list of frames actually passed to
    send, in order, so that theorems can speak about what was emitted;
  - the local variable `CanFrame frame;` of the source is default
    initialized, so its data buffer starts as unspecified garbage; the
    embedding threads that buffer explicitly (parameter buf0) and reuses it
    across loop iterations exactly as the single stack variable is reused.
-/

namespace mcan

/-- StatusCode of status.hpp; the Status class wraps such a code plus a
message, and both ok() and operator== look only at the code, so Status is
embedded as the code itself. -/
inductive Status where
  | OK
  | OutOfMemory
  | KeyError
  | TypeError
  | Invalid
  | IOError
  | CapacityError
  | IndexError
  | Cancelled
  | UnknownError
  | NotImplemented
  | SerializationError
  | RError
  | CodeGenError
  | ExpressionValidationError
  | ExecutionError
  | AlreadyExists
  | TimeOut
deriving DecidableEq

/-- CanFrame of can_base.hpp: 32-bit id, payload byte count, 8-byte data
buffer (modelled as a byte function, positions 0..7 meaningful), remote
request flag and extended-id flag. -/
structure CanFrame where
  id : Nat
  size : Nat
  data : Nat → Nat
  is_remote_request : Bool
  is_extended : Bool

/-- Arbitrary frame used as the default value for List.getD indexing. -/
def default_frame : CanFrame :=
  { id := 0, size := 0, data := fun _ => 0, is_remote_request := false, is_extended := true }

/-- CAN_REMOTE_REQUEST_FLAG of float_int16.hpp. -/
def CAN_REMOTE_REQUEST_FLAG : Nat := 0x40000000

/-- MAX_STRUCT_SIZE of float_int16.hpp: static size ceiling for records. -/
def MAX_STRUCT_SIZE : Nat := 16320

/-- std::memcpy(dst + doff, src + soff, n) on byte images: positions
doff ≤ p < doff + n of dst are replaced by src (soff + (p - doff)). -/
def memcpy (dst : Nat → Nat) (doff : Nat) (src : Nat → Nat) (soff n : Nat) : Nat → Nat :=
  fun p => if doff ≤ p ∧ p < doff + n then src (soff + (p - doff)) else dst p

/-- std::bitset::set(i). -/
def bitset_set (r : Nat → Bool) (i : Nat) : Nat → Bool :=
  fun j => if j = i then true else r j

/-- std::bitset::reset(): all bits clear. -/
def bitset_reset : Nat → Bool := fun _ => false

/-- std::bitset<n>::all(): every one of the n tracked bits is set. -/
def bitset_all (n : Nat) (r : Nat → Bool) : Bool :=
  (List.range n).all r

/-- expected_index_count of CanMultiPackageFrame:
sizeof(T) / 7 + ((sizeof(T) % 7) ? 1 : 0).  The sender loop of
mcan_pack_send_msg computes its total_frames by the identical formula. -/
def expected_index_count (sz : Nat) : Nat :=
  sz / 7 + (if sz % 7 = 0 then 0 else 1)

/-- CanMultiPackageFrame<T>: reassembly buffer holding the value byte image
and the received-segment bitset. -/
structure CanMultiPackageFrame where
  value : Nat → Nat
  received : Nat → Bool

/-- Fresh reassembly buffer: zeroed value, all received bits clear. -/
def zero_package : CanMultiPackageFrame :=
  { value := fun _ => 0, received := fun _ => false }

/-- mcan_connect_msg_id_with_node_id(uid_21_bit, node_id, remote) =
(uid_21_bit << 8) | node_id | (remote ? CAN_REMOTE_REQUEST_FLAG : 0),
computed in uint32, so the shift wraps mod 2 ^ 32. -/
def mcan_connect_msg_id_with_node_id (uid_21_bit node_id : Nat) (remote : Bool) : Nat :=
  ((uid_21_bit <<< 8) % 2 ^ 32) ||| node_id ||| (if remote then CAN_REMOTE_REQUEST_FLAG else 0)

/-- Frames built by the multi-segment loop of mcan_pack_send_msg, from loop
index frame_index up to total.  Each iteration sets
size = (last ? (sz - frame_index*7) + 1 : 8), data[0] = (uint8)frame_index,
memcpy(&data[1], &value[frame_index*7], size - 1), and reuses the single
stack CanFrame, so the data buffer (buf) is threaded to the next
iteration. -/
def mcan_pack_frames_loop (id0 sz : Nat) (v : Nat → Nat) (total : Nat) :
    Nat → Nat → (Nat → Nat) → List CanFrame
  | 0, _, _ => []
  | remaining + 1, frame_index, buf =>
    let fsize := if frame_index = total - 1 then (sz - frame_index * 7) + 1 else 8
    let d1 : Nat → Nat := fun p => if p = 0 then frame_index % 256 else buf p
    let d2 := memcpy d1 1 v (frame_index * 7) (fsize - 1)
    { id := id0, size := fsize, data := d2, is_remote_request := false, is_extended := true }
      :: mcan_pack_frames_loop id0 sz v total remaining (frame_index + 1) d2

/-- The sender loop with its guard `frame_index < total` expressed through
the iteration count total - frame_index. -/
def mcan_pack_frames (id0 sz : Nat) (v : Nat → Nat) (total : Nat)
    (frame_index : Nat) (buf : Nat → Nat) : List CanFrame :=
  mcan_pack_frames_loop id0 sz v total (total - frame_index) frame_index buf

/-- Sending loop of mcan_pack_send_msg: send each frame in order;
ARI_RETURN_ON_ERROR returns the first non-OK send status immediately.
The second component is the list of frames actually handed to send. -/
def mcan_send_frames (send : CanFrame → Status) : List CanFrame → Status × List CanFrame
  | [] => (Status.OK, [])
  | f :: fs =>
    let s := send f
    if s = Status.OK then
      let r := mcan_send_frames send fs
      (r.1, f :: r.2)
    else (s, [f])

/-- mcan_pack_send_msg(can_interface, struct_to_send, node_id) for a record
of byte size sz with raw bytes v and base address k_base_address.
The frame id is computed once; node_id is converted to uint8 at the call.
If sz ≤ 8 a single frame with size = sz and the raw bytes is sent and the
bus result is returned unchanged; otherwise the record is split into
total = expected_index_count sz indexed segments which are sent in
increasing loop order. -/
def mcan_pack_send_msg (send : CanFrame → Status) (k_base_address node_id sz : Nat)
    (v : Nat → Nat) (buf0 : Nat → Nat) : Status × List CanFrame :=
  let id0 := mcan_connect_msg_id_with_node_id k_base_address (node_id % 256) false
  if sz ≤ 8 then
    let frame : CanFrame :=
      { id := id0, size := sz, data := memcpy buf0 0 v 0 sz,
        is_remote_request := false, is_extended := true }
    (send frame, [frame])
  else
    mcan_send_frames send (mcan_pack_frames id0 sz v (expected_index_count sz) 0 buf0)

/-- Frames that mcan_pack_send_msg hands to a bus whose send accepts every
frame (every send reports OK): the full emitted frame sequence. -/
def mcan_packed_frames (k_base_address node_id sz : Nat) (v buf0 : Nat → Nat) : List CanFrame :=
  (mcan_pack_send_msg (fun _ => Status.OK) k_base_address node_id sz v buf0).2

/-- Shape of the frame the sender loop builds for loop index k when a
record of size sz is split into total segments: the composed id, remote
flag clear, extended id, the segment size of the source (8, or trailing
remainder + 1 for the last segment), the uint8-cast index in data[0], and
the record bytes at offset k*7 in data[1..size). -/
def SegFrameSpec (id0 sz total k : Nat) (v : Nat → Nat) (f : CanFrame) : Prop :=
  f.id = id0 ∧ f.is_remote_request = false ∧ f.is_extended = true ∧
  f.size = (if k = total - 1 then (sz - k * 7) + 1 else 8) ∧
  f.data 0 = k % 256 ∧
  ∀ j, j < f.size - 1 → f.data (1 + j) = v (k * 7 + j)

/-- The copy length `size_t data_size = frame.size - 1` of mcan_unpack_msg:
unsigned subtraction in size_t, wrapping mod 2 ^ 64 when frame.size = 0. -/
def mcan_unpack_data_size (fsize : Nat) : Nat :=
  (fsize + (2 ^ 64 - 1)) % 2 ^ 64

/-- mcan_unpack_msg(frame, struct_to_receive) for a record of byte size sz.
Single-frame records require frame.size = sz exactly; multi-segment records
read index = frame.data[0], reset the whole buffer on an out-of-range
index, otherwise memcpy data_size bytes of payload to offset index*7, set
the received bit, and report OK when all bits are set, else Cancelled. -/
def mcan_unpack_msg (sz : Nat) (frame : CanFrame) (struct_to_receive : CanMultiPackageFrame) :
    Status × CanMultiPackageFrame :=
  if sz ≤ 8 then
    if frame.size ≠ sz then
      (Status.Invalid, struct_to_receive)
    else
      (Status.OK, { struct_to_receive with
                    value := memcpy struct_to_receive.value 0 frame.data 0 sz })
  else
    let index := frame.data 0
    if index ≥ expected_index_count sz then
      (Status.Invalid, { value := fun _ => 0, received := bitset_reset })
    else
      let data_size := mcan_unpack_data_size frame.size
      let value2 := memcpy struct_to_receive.value (index * 7) frame.data 1 data_size
      let received2 := bitset_set struct_to_receive.received index
      if bitset_all (expected_index_count sz) received2 then
        (Status.OK, { value := value2, received := received2 })
      else
        (Status.Cancelled, { value := value2, received := received2 })

/-- Feed a list of frames one by one to mcan_unpack_msg, collecting the
status of every call and the final buffer. -/
def mcan_unpack_stream (sz : Nat) :
    CanMultiPackageFrame → List CanFrame → List Status × CanMultiPackageFrame
  | b, [] => ([], b)
  | b, f :: fs =>
    let r := mcan_unpack_msg sz f b
    let rest := mcan_unpack_stream sz r.2 fs
    (r.1 :: rest.1, rest.2)

/-- Invariant of the multi-segment reassembly buffer once exactly the
segment indices listed in done have been delivered for a record with byte
image v of size sz: a received bit is set precisely for delivered
indices, and each byte position holds the record byte when its segment
was delivered and is still zero otherwise. -/
def BufInv (sz : Nat) (v : Nat → Nat) (done : List Nat) (b : CanMultiPackageFrame) : Prop :=
  (∀ i, b.received i = decide (i ∈ done)) ∧
  (∀ p, b.value p = if p < sz ∧ p / 7 ∈ done then v p else 0)

/-! ### Helper lemmas -/

/-- The buffer invariant depends on the delivered-index list only through
membership. -/
theorem BufInv_congr (sz : Nat) (v : Nat → Nat) (d1 d2 : List Nat) (b : CanMultiPackageFrame)
    (h : ∀ i, i ∈ d1 ↔ i ∈ d2) (hb : BufInv sz v d1 b) : BufInv sz v d2 b := by
  constructor
  · intro i
    rw [hb.1 i]
    exact decide_eq_decide.mpr (h i)
  · intro p
    rw [hb.2 p]
    exact if_congr (and_congr_right fun _ => h _) rfl rfl

/-- The fresh zero buffer satisfies the invariant with nothing
delivered. -/
theorem BufInv_zero (sz : Nat) (v : Nat → Nat) : BufInv sz v [] zero_package := by
  constructor <;> intro x <;> simp [zero_package]

/-- The reset buffer written by the out-of-range branch satisfies the
invariant with nothing delivered. -/
theorem BufInv_reset (sz : Nat) (v : Nat → Nat) :
    BufInv sz v [] { value := fun _ => 0, received := bitset_reset } := by
  constructor <;> intro x <;> simp [bitset_reset]

/-- The unsigned copy length equals frame.size - 1 for a nonzero
frame.size that fits a byte. -/
theorem unpack_data_size_eq (fsize : Nat) (h1 : 1 ≤ fsize) (h2 : fsize ≤ 255) :
    mcan_unpack_data_size fsize = fsize - 1 := by
  unfold mcan_unpack_data_size
  norm_num
  omega

/-- The unsigned copy length wraps around for frame.size = 0. -/
theorem unpack_data_size_zero : mcan_unpack_data_size 0 = 2 ^ 64 - 1 := by
  unfold mcan_unpack_data_size
  norm_num

/-- The remote flag constant is bit 30. -/
theorem can_remote_flag_eq : CAN_REMOTE_REQUEST_FLAG = 2 ^ 30 := by
  norm_num [CAN_REMOTE_REQUEST_FLAG]

/-- Shift by 8 of a 21-bit base address stays below 2 ^ 29. -/
theorem shift8_lt (base_address : Nat) (hb : base_address < 2 ^ 21) :
    base_address <<< 8 < 2 ^ 29 := by
  rw [Nat.shiftLeft_eq]
  norm_num at hb ⊢
  omega

/-- expected_index_count is the ceiling of sz / 7. -/
theorem expected_index_count_eq (sz : Nat) :
    expected_index_count sz = (sz + 6) / 7 := by
  unfold expected_index_count
  split <;> omega

/-- Segment-count bounds: the last segment starts before sz and the
segments cover sz. -/
theorem expected_index_count_bounds (sz : Nat) (h : 0 < sz) :
    7 * (expected_index_count sz - 1) < sz ∧ sz ≤ 7 * expected_index_count sz := by
  unfold expected_index_count
  split <;> omega

/-- Length of the sender-loop frame list: one frame per iteration. -/
theorem pack_frames_loop_length (id0 sz : Nat) (v : Nat → Nat) (total : Nat) :
    ∀ remaining frame_index buf,
      (mcan_pack_frames_loop id0 sz v total remaining frame_index buf).length = remaining := by
  intro remaining
  induction remaining with
  | zero => intro fi buf; rfl
  | succ n ih =>
    intro fi buf
    simp only [mcan_pack_frames_loop, List.length_cons, ih]

/-- Length of the sender-loop frame list. -/
theorem pack_frames_length (id0 sz : Nat) (v : Nat → Nat) (total frame_index : Nat)
    (buf : Nat → Nat) :
    (mcan_pack_frames id0 sz v total frame_index buf).length = total - frame_index :=
  pack_frames_loop_length id0 sz v total (total - frame_index) frame_index buf

/-- Each frame of the sender loop satisfies the segment-frame shape for
its loop index. -/
theorem pack_frames_loop_getD (id0 sz : Nat) (v : Nat → Nat) (total : Nat) :
    ∀ remaining frame_index buf k, k < remaining → frame_index + remaining = total →
      SegFrameSpec id0 sz total (frame_index + k) v
        ((mcan_pack_frames_loop id0 sz v total remaining frame_index buf).getD k
          default_frame) := by
  intro remaining
  induction remaining with
  | zero =>
    intro fi buf k hk
    omega
  | succ n ih =>
    intro fi buf k hk htot
    cases k with
    | zero =>
      simp only [mcan_pack_frames_loop, List.getD_cons_zero, Nat.add_zero]
      refine ⟨rfl, rfl, rfl, rfl, ?_, ?_⟩
      · simp [memcpy]
      · intro j hj
        have hj2 : j < (if fi = total - 1 then sz - fi * 7 + 1 else 8) - 1 := hj
        show memcpy (fun p => if p = 0 then fi % 256 else buf p) 1 v (fi * 7)
          ((if fi = total - 1 then sz - fi * 7 + 1 else 8) - 1) (1 + j) = v (fi * 7 + j)
        simp only [memcpy]
        rw [if_pos ⟨by omega, by omega⟩]
        congr 1
        omega
    | succ k =>
      simp only [mcan_pack_frames_loop, List.getD_cons_succ]
      have heq : fi + (k + 1) = (fi + 1) + k := by omega
      rw [heq]
      exact ih (fi + 1) _ k (by omega) (by omega)

/-- Each frame of the sender-loop frame list satisfies the segment-frame
shape for its position. -/
theorem pack_frames_getD (id0 sz : Nat) (v : Nat → Nat) (total : Nat)
    (k frame_index : Nat) (buf : Nat → Nat) (h : frame_index + k < total) :
    SegFrameSpec id0 sz total (frame_index + k) v
      ((mcan_pack_frames id0 sz v total frame_index buf).getD k default_frame) :=
  pack_frames_loop_getD id0 sz v total (total - frame_index) frame_index buf k
    (by omega) (by omega)

/-- Every frame emitted by the sender loop carries a first data byte below
256 (it is a uint8 cast of the loop index). -/
theorem pack_frames_data0_lt (id0 sz : Nat) (v : Nat → Nat) (total : Nat) :
    ∀ remaining frame_index buf f,
      f ∈ mcan_pack_frames_loop id0 sz v total remaining frame_index buf →
      f.data 0 < 256 := by
  intro remaining
  induction remaining with
  | zero =>
    intro fi buf f hf
    simp [mcan_pack_frames_loop] at hf
  | succ n ih =>
    intro fi buf f hf
    rw [mcan_pack_frames_loop] at hf
    rcases List.mem_cons.mp hf with hf | hf
    · subst hf
      simp only [memcpy]
      rw [if_neg (by omega)]
      simp [Nat.mod_lt _ (by norm_num : (0:Nat) < 256)]
    · exact ih (fi + 1) _ f hf

/-- If the bus accepts every frame, the sending loop sends all of them and
reports OK. -/
theorem send_frames_all_ok (send : CanFrame → Status) :
    ∀ l, (∀ f ∈ l, send f = Status.OK) →
      mcan_send_frames send l = (Status.OK, l) := by
  intro l
  induction l with
  | nil => intro _; rfl
  | cons f fs ih =>
    intro h
    have hf : send f = Status.OK := h f (List.mem_cons_self f fs)
    simp [mcan_send_frames, hf, ih fun g hg => h g (List.mem_cons_of_mem f hg)]

/-- If sends up to position k succeed and the send of the frame at
position k fails, the sending loop stops there: it returns that failure
status and has handed over exactly the first k + 1 frames. -/
theorem send_frames_first_error (send : CanFrame → Status) :
    ∀ l k, k < l.length →
      (∀ j, j < k → send (l.getD j default_frame) = Status.OK) →
      send (l.getD k default_frame) ≠ Status.OK →
      mcan_send_frames send l =
        (send (l.getD k default_frame), l.take (k + 1)) := by
  intro l
  induction l with
  | nil =>
    intro k hk
    simp at hk
  | cons f fs ih =>
    intro k hk hok hbad
    cases k with
    | zero =>
      simp only [List.getD_cons_zero] at hbad ⊢
      simp [mcan_send_frames, hbad]
    | succ k =>
      have hf : send f = Status.OK := by
        have := hok 0 (by omega)
        simpa using this
      simp only [List.getD_cons_succ] at hbad ⊢
      have hrec := ih k (by simpa using hk)
        (fun j hj => by simpa using hok (j + 1) (by omega)) hbad
      simp [mcan_send_frames, hf, hrec, List.take_succ_cons]

/-- In the multi-segment branch, mcan_pack_send_msg is the sending loop
applied to the pure frame list. -/
theorem pack_send_msg_multi (send : CanFrame → Status) (k_base_address node_id sz : Nat)
    (v buf0 : Nat → Nat) (hsz : 8 < sz) :
    mcan_pack_send_msg send k_base_address node_id sz v buf0 =
      mcan_send_frames send
        (mcan_pack_frames (mcan_connect_msg_id_with_node_id k_base_address (node_id % 256) false)
          sz v (expected_index_count sz) 0 buf0) := by
  rw [mcan_pack_send_msg, if_neg (by omega)]

/-- The emitted frames of a fully accepted multi-segment send are the pure
sender-loop frames. -/
theorem packed_frames_eq (k_base_address node_id sz : Nat) (v buf0 : Nat → Nat)
    (hsz : 8 < sz) :
    mcan_packed_frames k_base_address node_id sz v buf0 =
      mcan_pack_frames (mcan_connect_msg_id_with_node_id k_base_address (node_id % 256) false)
        sz v (expected_index_count sz) 0 buf0 := by
  rw [mcan_packed_frames, pack_send_msg_multi _ _ _ _ _ _ hsz,
    send_frames_all_ok _ _ fun _ _ => rfl]

/-- Length of the emitted multi-segment frame list. -/
theorem packed_frames_length (k_base_address node_id sz : Nat) (v buf0 : Nat → Nat)
    (hsz : 8 < sz) :
    (mcan_packed_frames k_base_address node_id sz v buf0).length = expected_index_count sz := by
  rw [packed_frames_eq _ _ _ _ _ hsz, pack_frames_length]
  omega

/-- Segment-frame shape of each emitted frame. -/
theorem packed_frames_getD (k_base_address node_id sz : Nat) (v buf0 : Nat → Nat) (k : Nat)
    (hsz : 8 < sz) (hk : k < expected_index_count sz) :
    SegFrameSpec (mcan_connect_msg_id_with_node_id k_base_address (node_id % 256) false)
      sz (expected_index_count sz) k v
      ((mcan_packed_frames k_base_address node_id sz v buf0).getD k default_frame) := by
  rw [packed_frames_eq _ _ _ _ _ hsz]
  have := pack_frames_getD (mcan_connect_msg_id_with_node_id k_base_address (node_id % 256) false)
    sz v (expected_index_count sz) k 0 buf0 (by omega)
  simpa using this

/-- Membership form: every emitted multi-segment frame carries a first
data byte below 256. -/
theorem packed_frames_mem_data0_lt (k_base_address node_id sz : Nat) (v buf0 : Nat → Nat)
    (hsz : 8 < sz) :
    ∀ f ∈ mcan_packed_frames k_base_address node_id sz v buf0, f.data 0 < 256 := by
  rw [packed_frames_eq _ _ _ _ _ hsz]
  intro f hf
  exact pack_frames_data0_lt _ _ _ _ _ _ _ f hf

/-! ### C4: addressing codec -/

/-- C4: for a 21-bit base address and an 8-bit node id,
mcan_connect_msg_id_with_node_id(base, node, false) = (base << 8) | node,
and with remote = true the result additionally carries bit 30
(CAN_REMOTE_REQUEST_FLAG = 0x40000000) while the low 29 identifier bits
are unchanged; the non-remote id itself fits in 29 bits. -/
theorem connect_id_spec (base_address node_id : Nat)
    (hb : base_address < 2 ^ 21) (hn : node_id < 2 ^ 8) :
    mcan_connect_msg_id_with_node_id base_address node_id false =
      (base_address <<< 8) ||| node_id ∧
    mcan_connect_msg_id_with_node_id base_address node_id true =
      ((base_address <<< 8) ||| node_id) ||| CAN_REMOTE_REQUEST_FLAG ∧
    Nat.testBit (mcan_connect_msg_id_with_node_id base_address node_id true) 30 = true ∧
    mcan_connect_msg_id_with_node_id base_address node_id true % 2 ^ 29 =
      mcan_connect_msg_id_with_node_id base_address node_id false ∧
    mcan_connect_msg_id_with_node_id base_address node_id false < 2 ^ 29 := by
  have hlt : base_address <<< 8 < 2 ^ 29 := shift8_lt base_address hb
  have hmod : (base_address <<< 8) % 4294967296 = base_address <<< 8 :=
    Nat.mod_eq_of_lt (lt_trans hlt (by norm_num))
  have hor : (base_address <<< 8) ||| node_id < 2 ^ 29 :=
    Nat.or_lt_two_pow hlt (lt_trans hn (by norm_num))
  have hfalse : mcan_connect_msg_id_with_node_id base_address node_id false =
      (base_address <<< 8) ||| node_id := by
    simp [mcan_connect_msg_id_with_node_id, hmod]
  have htrue : mcan_connect_msg_id_with_node_id base_address node_id true =
      ((base_address <<< 8) ||| node_id) ||| 2 ^ 30 := by
    simp [mcan_connect_msg_id_with_node_id, hmod, can_remote_flag_eq]
  refine ⟨hfalse, by rw [htrue, can_remote_flag_eq], ?_, ?_, by rw [hfalse]; exact hor⟩
  · rw [htrue, Nat.testBit_or, Nat.testBit_two_pow_self, Bool.or_true]
  · rw [htrue, hfalse, ← Nat.and_pow_two_sub_one_eq_mod, Nat.and_distrib_right,
      Nat.and_pow_two_sub_one_of_lt_two_pow hor, Nat.and_pow_two_sub_one_eq_mod]
    norm_num

/-- Witness for C4 at the example of the spec:
compose(0x1234, 5, false) = (0x1234 << 8) | 5. -/
theorem connect_id_spec_witness :
    0x1234 < 2 ^ 21 ∧ 5 < 2 ^ 8 ∧
    (mcan_connect_msg_id_with_node_id 0x1234 5 false = (0x1234 <<< 8) ||| 5 ∧
     mcan_connect_msg_id_with_node_id 0x1234 5 true =
       ((0x1234 <<< 8) ||| 5) ||| CAN_REMOTE_REQUEST_FLAG ∧
     Nat.testBit (mcan_connect_msg_id_with_node_id 0x1234 5 true) 30 = true ∧
     mcan_connect_msg_id_with_node_id 0x1234 5 true % 2 ^ 29 =
       mcan_connect_msg_id_with_node_id 0x1234 5 false ∧
     mcan_connect_msg_id_with_node_id 0x1234 5 false < 2 ^ 29) :=
  ⟨by decide, by decide, connect_id_spec 0x1234 5 (by decide) (by decide)⟩

/-! ### C6: single-frame send path -/

/-- C6: for a record of size at most 8 bytes, mcan_pack_send_msg emits
exactly one frame, with the composed non-remote id, size = sizeof(Record),
data equal to the raw bytes of the record, is_remote_request = false, and
returns the bus send result for that frame unchanged. -/
theorem pack_single_frame_spec (send : CanFrame → Status) (base_address node_id sz : Nat)
    (v buf0 : Nat → Nat) (hsz : sz ≤ 8) (hnode : node_id < 256) :
    ∃ F : CanFrame,
      mcan_pack_send_msg send base_address node_id sz v buf0 = (send F, [F]) ∧
      F.id = mcan_connect_msg_id_with_node_id base_address node_id false ∧
      F.size = sz ∧
      (∀ p, p < sz → F.data p = v p) ∧
      F.is_remote_request = false := by
  refine ⟨{ id := mcan_connect_msg_id_with_node_id base_address (node_id % 256) false,
            size := sz, data := memcpy buf0 0 v 0 sz,
            is_remote_request := false, is_extended := true }, ?_, ?_, rfl, ?_, rfl⟩
  · simp [mcan_pack_send_msg, hsz]
  · simp [Nat.mod_eq_of_lt hnode]
  · intro p hp
    simp [memcpy, hp]

/-- Witness for C6 at a concrete 4-byte record. -/
theorem pack_single_frame_spec_witness :
    (4 : Nat) ≤ 8 ∧ (5 : Nat) < 256 ∧
    (∃ F : CanFrame,
      mcan_pack_send_msg (fun _ => Status.IOError) 3 5 4 (fun p => p + 10) (fun _ => 99) =
        ((fun _ => Status.IOError) F, [F]) ∧
      F.id = mcan_connect_msg_id_with_node_id 3 5 false ∧
      F.size = 4 ∧
      (∀ p, p < 4 → F.data p = p + 10) ∧
      F.is_remote_request = false) :=
  ⟨by decide, by decide,
    pack_single_frame_spec (fun _ => Status.IOError) 3 5 4 (fun p => p + 10) (fun _ => 99)
      (by decide) (by decide)⟩

/-! ### C7: single-frame receive path -/

/-- C7: for a record of size at most 8 bytes, a frame whose size differs
from sizeof(Record) makes mcan_unpack_msg report Invalid and leave the
buffer untouched; a frame of matching size is copied verbatim into value
and completion (OK) is reported immediately, with the received bitset and
the bytes beyond the record untouched. -/
theorem unpack_single_frame_spec (sz : Nat) (f : CanFrame) (b : CanMultiPackageFrame)
    (hsz : sz ≤ 8) :
    (f.size ≠ sz → mcan_unpack_msg sz f b = (Status.Invalid, b)) ∧
    (f.size = sz →
      (mcan_unpack_msg sz f b).1 = Status.OK ∧
      (∀ p, p < sz → (mcan_unpack_msg sz f b).2.value p = f.data p) ∧
      (∀ p, sz ≤ p → (mcan_unpack_msg sz f b).2.value p = b.value p) ∧
      (∀ i, (mcan_unpack_msg sz f b).2.received i = b.received i)) := by
  constructor
  · intro hne
    simp [mcan_unpack_msg, hsz, hne]
  · intro heq
    refine ⟨by simp [mcan_unpack_msg, hsz, heq], ?_, ?_, ?_⟩
    · intro p hp
      simp [mcan_unpack_msg, hsz, heq, memcpy, hp]
    · intro p hp
      simp [mcan_unpack_msg, hsz, heq, memcpy]
      omega
    · intro i
      simp [mcan_unpack_msg, hsz, heq]

/-- Witness for C7 at a concrete 4-byte record and a size-7 frame. -/
theorem unpack_single_frame_spec_witness :
    (4 : Nat) ≤ 8 ∧
    (((⟨0, 7, fun p => p, false, true⟩ : CanFrame).size ≠ 4 →
      mcan_unpack_msg 4 (⟨0, 7, fun p => p, false, true⟩ : CanFrame) zero_package =
        (Status.Invalid, zero_package)) ∧
     ((⟨0, 7, fun p => p, false, true⟩ : CanFrame).size = 4 →
      (mcan_unpack_msg 4 (⟨0, 7, fun p => p, false, true⟩ : CanFrame) zero_package).1 =
        Status.OK ∧
      (∀ p, p < 4 →
        (mcan_unpack_msg 4 (⟨0, 7, fun p => p, false, true⟩ : CanFrame) zero_package).2.value p =
          (⟨0, 7, fun p => p, false, true⟩ : CanFrame).data p) ∧
      (∀ p, 4 ≤ p →
        (mcan_unpack_msg 4 (⟨0, 7, fun p => p, false, true⟩ : CanFrame) zero_package).2.value p =
          zero_package.value p) ∧
      (∀ i,
        (mcan_unpack_msg 4 (⟨0, 7, fun p => p, false, true⟩ : CanFrame) zero_package).2.received i =
          zero_package.received i))) :=
  ⟨by decide,
    unpack_single_frame_spec 4 (⟨0, 7, fun p => p, false, true⟩ : CanFrame) zero_package
      (by decide)⟩

/-! ### C2: segment index byte -/

/-- C2 (amended): for every record the segmenter accepts (8 < sz ≤
MAX_STRUCT_SIZE), the one-byte index field data[0] of segment k is the
uint8 cast k % 256; it equals the true segment index exactly when the
record has at most 256 segments (sz ≤ 1792), so faithful unreduced index
encoding holds only up to the 1792-byte bound, not up to the nominal
16320-byte ceiling. -/
theorem segment_index_byte (k_base_address node_id sz : Nat) (v buf0 : Nat → Nat) (k : Nat)
    (hsz : 8 < sz) (_hmax : sz ≤ MAX_STRUCT_SIZE) (hk : k < expected_index_count sz) :
    ((mcan_packed_frames k_base_address node_id sz v buf0).getD k default_frame).data 0 =
      k % 256 ∧
    (sz ≤ 1792 →
      ((mcan_packed_frames k_base_address node_id sz v buf0).getD k default_frame).data 0 = k) := by
  obtain ⟨-, -, -, -, hd0, -⟩ := packed_frames_getD k_base_address node_id sz v buf0 k hsz hk
  refine ⟨hd0, fun h1792 => ?_⟩
  rw [hd0]
  have h256 : expected_index_count sz ≤ 256 := by
    rw [expected_index_count_eq]
    omega
  exact Nat.mod_eq_of_lt (by omega)

/-- Witness for C2 at a 20-byte record, segment 2. -/
theorem segment_index_byte_witness :
    8 < 20 ∧ 20 ≤ MAX_STRUCT_SIZE ∧ 2 < expected_index_count 20 ∧
    (((mcan_packed_frames 1 5 20 (fun p => p) (fun _ => 0)).getD 2 default_frame).data 0 =
       2 % 256 ∧
     (20 ≤ 1792 →
      ((mcan_packed_frames 1 5 20 (fun p => p) (fun _ => 0)).getD 2 default_frame).data 0 = 2)) :=
  ⟨by decide, by decide, by decide,
    segment_index_byte 1 5 20 (fun p => p) (fun _ => 0) 2 (by decide) (by decide) (by decide)⟩

/-- C2 counterexample: at the accepted record size 1793 the segmenter
emits 257 segments, and the segment at loop index 256 carries index byte
0, not 256 — the index encoding reduces mod 256 within the accepted size
range. -/
theorem segment_index_byte_wraps :
    8 < 1793 ∧ 1793 ≤ MAX_STRUCT_SIZE ∧
    (mcan_packed_frames 0 2 1793 (fun _ => 0) (fun _ => 0)).length = 257 ∧
    ((mcan_packed_frames 0 2 1793 (fun _ => 0) (fun _ => 0)).getD 256 default_frame).data 0 = 0 ∧
    ((mcan_packed_frames 0 2 1793 (fun _ => 0) (fun _ => 0)).getD 256 default_frame).data 0 ≠
      256 := by
  have h257 : expected_index_count 1793 = 257 := by
    rw [expected_index_count_eq]
  have hlen := packed_frames_length 0 2 1793 (fun _ => 0) (fun _ => 0) (by norm_num)
  obtain ⟨-, -, -, -, hd0, -⟩ :=
    packed_frames_getD 0 2 1793 (fun _ => 0) (fun _ => 0) 256 (by norm_num) (by omega)
  refine ⟨by norm_num, by norm_num [MAX_STRUCT_SIZE], by omega, ?_, ?_⟩
  · rw [hd0]
  · rw [hd0]
    norm_num

/-! ### C3: multi-segment frame sequence -/

/-- C3 (amended: the index byte is the uint8 cast k % 256 of the loop
index, so strict index encoding holds only while segments remain below
256): mcan_pack_send_msg builds exactly ceil(sz / 7) frames, all with the
composed non-remote id; the frame at emission position k carries
data[0] = k % 256, size 8 for every segment but the last and trailing
remainder + 1 for the last, its payload bytes are the record bytes at
offset k*7, and every frame keeps size ≤ 8. -/
theorem pack_frames_shape (k_base_address node_id sz : Nat) (v buf0 : Nat → Nat)
    (hsz : 8 < sz) (hnode : node_id < 256) :
    (mcan_packed_frames k_base_address node_id sz v buf0).length = expected_index_count sz ∧
    expected_index_count sz = (sz + 6) / 7 ∧
    (∀ k, k < expected_index_count sz →
      ((mcan_packed_frames k_base_address node_id sz v buf0).getD k default_frame).id =
        mcan_connect_msg_id_with_node_id k_base_address node_id false ∧
      ((mcan_packed_frames k_base_address node_id sz v buf0).getD k
          default_frame).is_remote_request = false ∧
      ((mcan_packed_frames k_base_address node_id sz v buf0).getD k default_frame).data 0 =
        k % 256 ∧
      ((mcan_packed_frames k_base_address node_id sz v buf0).getD k default_frame).size =
        (if k = expected_index_count sz - 1 then (sz - k * 7) + 1 else 8) ∧
      ((mcan_packed_frames k_base_address node_id sz v buf0).getD k default_frame).size ≤ 8 ∧
      (∀ j, j < ((mcan_packed_frames k_base_address node_id sz v buf0).getD k
          default_frame).size - 1 →
        ((mcan_packed_frames k_base_address node_id sz v buf0).getD k default_frame).data
          (1 + j) = v (k * 7 + j))) := by
  refine ⟨packed_frames_length _ _ _ _ _ hsz, expected_index_count_eq sz, fun k hk => ?_⟩
  obtain ⟨hid, hrr, -, hsize, hd0, hdata⟩ :=
    packed_frames_getD k_base_address node_id sz v buf0 k hsz hk
  have hbounds := expected_index_count_bounds sz (by omega)
  refine ⟨by rw [hid, Nat.mod_eq_of_lt hnode], hrr, hd0, hsize, ?_, hdata⟩
  rw [hsize]
  split
  · next hlast =>
    subst hlast
    omega
  · omega

/-- Witness for C3 at the 20-byte example of the spec: 3 segments, the
last frame has size 7 (1 index byte + 6 payload bytes). -/
theorem pack_frames_shape_witness :
    8 < 20 ∧ 5 < 256 ∧
    (mcan_packed_frames 1 5 20 (fun p => p + 1) (fun _ => 0)).length = 3 ∧
    ((mcan_packed_frames 1 5 20 (fun p => p + 1) (fun _ => 0)).getD 0 default_frame).size = 8 ∧
    ((mcan_packed_frames 1 5 20 (fun p => p + 1) (fun _ => 0)).getD 1 default_frame).size = 8 ∧
    ((mcan_packed_frames 1 5 20 (fun p => p + 1) (fun _ => 0)).getD 2 default_frame).size = 7 ∧
    ((mcan_packed_frames 1 5 20 (fun p => p + 1) (fun _ => 0)).length =
        expected_index_count 20 ∧
      expected_index_count 20 = (20 + 6) / 7 ∧
      (∀ k, k < expected_index_count 20 →
        ((mcan_packed_frames 1 5 20 (fun p => p + 1) (fun _ => 0)).getD k default_frame).id =
          mcan_connect_msg_id_with_node_id 1 5 false ∧
        ((mcan_packed_frames 1 5 20 (fun p => p + 1) (fun _ => 0)).getD k
            default_frame).is_remote_request = false ∧
        ((mcan_packed_frames 1 5 20 (fun p => p + 1) (fun _ => 0)).getD k default_frame).data 0 =
          k % 256 ∧
        ((mcan_packed_frames 1 5 20 (fun p => p + 1) (fun _ => 0)).getD k default_frame).size =
          (if k = expected_index_count 20 - 1 then (20 - k * 7) + 1 else 8) ∧
        ((mcan_packed_frames 1 5 20 (fun p => p + 1) (fun _ => 0)).getD k default_frame).size ≤
          8 ∧
        (∀ j, j < ((mcan_packed_frames 1 5 20 (fun p => p + 1) (fun _ => 0)).getD k
            default_frame).size - 1 →
          ((mcan_packed_frames 1 5 20 (fun p => p + 1) (fun _ => 0)).getD k default_frame).data
            (1 + j) = (k * 7 + j) + 1))) :=
  ⟨by decide, by decide, by decide, by decide, by decide, by decide,
    pack_frames_shape 1 5 20 (fun p => p + 1) (fun _ => 0) (by decide) (by decide)⟩

/-- C3 counterexample: at the accepted record size 1793 the emission
position 256 exists but its index byte is not 256 — frames are not
annotated with their true segment index beyond 255. -/
theorem pack_frames_index_wraps :
    8 < 1793 ∧
    (mcan_packed_frames 0 2 1793 (fun _ => 7) (fun _ => 0)).length = 257 ∧
    ((mcan_packed_frames 0 2 1793 (fun _ => 7) (fun _ => 0)).getD 256 default_frame).data 0 ≠
      256 := by
  have h257 : expected_index_count 1793 = 257 := by
    rw [expected_index_count_eq]
  have hlen := packed_frames_length 0 2 1793 (fun _ => 7) (fun _ => 0) (by norm_num)
  obtain ⟨-, -, -, -, hd0, -⟩ :=
    packed_frames_getD 0 2 1793 (fun _ => 7) (fun _ => 0) 256 (by norm_num) (by omega)
  refine ⟨by norm_num, by omega, ?_⟩
  rw [hd0]
  norm_num

/-! ### C9: send failure propagation -/

/-- C9: in the multi-segment branch, if every send succeeds,
mcan_pack_send_msg sends all ceil(sz / 7) frames and returns OK; if the
send of the frame at position k is the first to fail, exactly the frames
up to and including position k are handed to the bus (no later segment,
no cancellation frame) and the first failure status is returned
unchanged. -/
theorem pack_send_error_propagation (send : CanFrame → Status) (k_base_address node_id sz : Nat)
    (v buf0 : Nat → Nat) (hsz : 8 < sz) :
    ((∀ f ∈ mcan_packed_frames k_base_address node_id sz v buf0, send f = Status.OK) →
      mcan_pack_send_msg send k_base_address node_id sz v buf0 =
        (Status.OK, mcan_packed_frames k_base_address node_id sz v buf0)) ∧
    (∀ k, k < (mcan_packed_frames k_base_address node_id sz v buf0).length →
      (∀ j, j < k →
        send ((mcan_packed_frames k_base_address node_id sz v buf0).getD j default_frame) =
          Status.OK) →
      send ((mcan_packed_frames k_base_address node_id sz v buf0).getD k default_frame) ≠
        Status.OK →
      mcan_pack_send_msg send k_base_address node_id sz v buf0 =
        (send ((mcan_packed_frames k_base_address node_id sz v buf0).getD k default_frame),
          (mcan_packed_frames k_base_address node_id sz v buf0).take (k + 1))) := by
  rw [pack_send_msg_multi send _ _ _ _ _ hsz, packed_frames_eq _ _ _ _ _ hsz]
  exact ⟨fun h => send_frames_all_ok send _ h,
    fun k hk hok hbad => send_frames_first_error send _ k hk hok hbad⟩

/-- Witness for C9 at a 9-byte record with a bus that rejects the second
segment. -/
theorem pack_send_error_propagation_witness :
    8 < 9 ∧
    (((∀ f ∈ mcan_packed_frames 1 2 9 (fun p => p) (fun _ => 0),
        (fun g => if g.data 0 = 0 then Status.OK else Status.IOError) f = Status.OK) →
      mcan_pack_send_msg (fun g => if g.data 0 = 0 then Status.OK else Status.IOError)
          1 2 9 (fun p => p) (fun _ => 0) =
        (Status.OK, mcan_packed_frames 1 2 9 (fun p => p) (fun _ => 0))) ∧
    (∀ k, k < (mcan_packed_frames 1 2 9 (fun p => p) (fun _ => 0)).length →
      (∀ j, j < k →
        (fun g => if g.data 0 = 0 then Status.OK else Status.IOError)
          ((mcan_packed_frames 1 2 9 (fun p => p) (fun _ => 0)).getD j default_frame) =
          Status.OK) →
      (fun g => if g.data 0 = 0 then Status.OK else Status.IOError)
        ((mcan_packed_frames 1 2 9 (fun p => p) (fun _ => 0)).getD k default_frame) ≠
        Status.OK →
      mcan_pack_send_msg (fun g => if g.data 0 = 0 then Status.OK else Status.IOError)
          1 2 9 (fun p => p) (fun _ => 0) =
        ((fun g => if g.data 0 = 0 then Status.OK else Status.IOError)
            ((mcan_packed_frames 1 2 9 (fun p => p) (fun _ => 0)).getD k default_frame),
          (mcan_packed_frames 1 2 9 (fun p => p) (fun _ => 0)).take (k + 1)))) :=
  ⟨by decide,
    pack_send_error_propagation (fun g => if g.data 0 = 0 then Status.OK else Status.IOError)
      1 2 9 (fun p => p) (fun _ => 0) (by decide)⟩

/-! ### Reassembly step and stream lemmas -/

/-- Delivering a well-formed in-range segment frame for index k updates
the invariant from done to k :: done; the call reports OK exactly when
the indices k :: done cover every expected segment, and otherwise reports
Cancelled. -/
theorem unpack_step (sz : Nat) (v : Nat → Nat) (k : Nat) (done : List Nat)
    (b : CanMultiPackageFrame) (f : CanFrame) (hsz : 8 < sz)
    (hk : k < expected_index_count sz) (hidx : f.data 0 = k)
    (hsize : f.size = if k = expected_index_count sz - 1 then (sz - k * 7) + 1 else 8)
    (hdata : ∀ j, j < f.size - 1 → f.data (1 + j) = v (k * 7 + j))
    (hinv : BufInv sz v done b) :
    BufInv sz v (k :: done) (mcan_unpack_msg sz f b).2 ∧
    ((mcan_unpack_msg sz f b).1 = Status.OK ↔
      (∀ i, i < expected_index_count sz → i ∈ k :: done)) ∧
    ((mcan_unpack_msg sz f b).1 = Status.OK ∨ (mcan_unpack_msg sz f b).1 = Status.Cancelled) := by
  have hbounds := expected_index_count_bounds sz (by omega)
  have hfs1 : 1 ≤ f.size := by
    rw [hsize]
    split <;> omega
  have hfs255 : f.size ≤ 255 := by
    rw [hsize]
    split <;> omega
  have hds : mcan_unpack_data_size f.size = f.size - 1 := unpack_data_size_eq _ hfs1 hfs255
  have hregion : ∀ p, (k * 7 ≤ p ∧ p < k * 7 + (f.size - 1)) ↔ (p < sz ∧ p / 7 = k) := by
    intro p
    rw [hsize]
    split
    · next hlast =>
      subst hlast
      omega
    · next hnot =>
      have hklt : k < expected_index_count sz - 1 := by omega
      omega
  have hunf : mcan_unpack_msg sz f b =
      (if bitset_all (expected_index_count sz) (bitset_set b.received k) then Status.OK
        else Status.Cancelled,
       { value := memcpy b.value (k * 7) f.data 1 (f.size - 1),
         received := bitset_set b.received k }) := by
    rw [mcan_unpack_msg, if_neg (by omega)]
    simp only [hidx, hds]
    rw [if_neg (by omega)]
    split <;> rfl
  have hrec : ∀ i, bitset_set b.received k i = decide (i ∈ k :: done) := by
    intro i
    by_cases hik : i = k
    · simp [bitset_set, hik]
    · simp [bitset_set, hik, hinv.1 i]
  have hval : ∀ p, memcpy b.value (k * 7) f.data 1 (f.size - 1) p =
      if p < sz ∧ p / 7 ∈ k :: done then v p else 0 := by
    intro p
    by_cases hreg : k * 7 ≤ p ∧ p < k * 7 + (f.size - 1)
    · have hp := (hregion p).mp hreg
      rw [memcpy, if_pos hreg, hdata (p - k * 7) (by omega),
        show k * 7 + (p - k * 7) = p by omega,
        if_pos ⟨hp.1, by rw [hp.2]; exact List.mem_cons_self k done⟩]
    · rw [memcpy, if_neg hreg, hinv.2 p]
      refine if_congr (and_congr_right fun hp => ?_) rfl rfl
      rw [List.mem_cons]
      constructor
      · intro h
        exact Or.inr h
      · rintro (h | h)
        · exact absurd ((hregion p).mpr ⟨hp, h⟩) hreg
        · exact h
  have hall : bitset_all (expected_index_count sz) (bitset_set b.received k) = true ↔
      (∀ i, i < expected_index_count sz → i ∈ k :: done) := by
    rw [bitset_all, List.all_eq_true]
    constructor
    · intro h i hi
      have := h i (List.mem_range.mpr hi)
      rw [hrec i] at this
      exact of_decide_eq_true this
    · intro h i hi
      rw [hrec i]
      exact decide_eq_true (h i (List.mem_range.mp hi))
  rw [hunf]
  refine ⟨⟨hrec, hval⟩, ?_, ?_⟩
  · constructor
    · intro h
      by_contra hcov
      rw [if_neg (fun hb2 => hcov (hall.mp hb2))] at h
      exact Status.noConfusion h
    · intro h
      rw [if_pos (hall.mpr h)]
  · split
    · exact Or.inl rfl
    · exact Or.inr rfl

/-- A list of naturals that is nodup and bounded by total mentions every
i < total exactly when its length is total. -/
theorem mem_all_iff_length (total : Nat) (L : List Nat) (hnd : L.Nodup)
    (hsub : ∀ i ∈ L, i < total) :
    ((∀ i, i < total → i ∈ L) ↔ L.length = total) := by
  have hsubf : L.toFinset ⊆ Finset.range total := by
    intro x hx
    rw [List.mem_toFinset] at hx
    rw [Finset.mem_range]
    exact hsub x hx
  constructor
  · intro h
    have heq : L.toFinset = Finset.range total := by
      refine Finset.Subset.antisymm hsubf ?_
      intro i hi
      rw [Finset.mem_range] at hi
      rw [List.mem_toFinset]
      exact h i hi
    have := congrArg Finset.card heq
    rwa [List.toFinset_card_of_nodup hnd, Finset.card_range] at this
  · intro hlen i hi
    have hcard : (Finset.range total).card ≤ L.toFinset.card := by
      rw [List.toFinset_card_of_nodup hnd, Finset.card_range, hlen]
    have heq := Finset.eq_of_subset_of_card_le hsubf hcard
    have : i ∈ L.toFinset := by
      rw [heq, Finset.mem_range]
      exact hi
    rwa [List.mem_toFinset] at this

/-- Feeding well-formed segment frames for a nodup list of fresh indices
ks to a buffer satisfying the invariant for done: call m reports OK
exactly when it completes the cover (done.length + m + 1 segments equal
the expected count) and Cancelled otherwise, and afterwards the invariant
holds for all of ks ++ done. -/
theorem unpack_stream_spec (sz : Nat) (v : Nat → Nat) (g : Nat → CanFrame)
    (hsz : 8 < sz) (h256 : expected_index_count sz ≤ 256)
    (hg : ∀ k, k < expected_index_count sz →
      (g k).size = (if k = expected_index_count sz - 1 then (sz - k * 7) + 1 else 8) ∧
      (g k).data 0 = k % 256 ∧
      (∀ j, j < (g k).size - 1 → (g k).data (1 + j) = v (k * 7 + j))) :
    ∀ (ks done : List Nat) (b : CanMultiPackageFrame),
      (∀ k ∈ ks, k < expected_index_count sz) →
      (∀ i ∈ done, i < expected_index_count sz) →
      (done ++ ks).Nodup →
      BufInv sz v done b →
      (mcan_unpack_stream sz b (ks.map g)).1 =
        (List.range ks.length).map
          (fun m => if done.length + m + 1 = expected_index_count sz
            then Status.OK else Status.Cancelled) ∧
      BufInv sz v (ks.reverse ++ done) (mcan_unpack_stream sz b (ks.map g)).2 := by
  intro ks
  induction ks with
  | nil =>
    intro done b _ _ _ hinv
    exact ⟨rfl, hinv⟩
  | cons k ks ih =>
    intro done b hks hdone hnd hinv
    have hk : k < expected_index_count sz := hks k (List.mem_cons_self k ks)
    obtain ⟨hsize, hd0, hdata⟩ := hg k hk
    have hidx : (g k).data 0 = k := by
      rw [hd0]
      exact Nat.mod_eq_of_lt (by omega)
    have hstep := unpack_step sz v k done b (g k) hsz hk hidx hsize hdata hinv
    have hnd2 : ((k :: done) ++ ks).Nodup := by
      have hperm : (done ++ k :: ks).Perm (k :: (done ++ ks)) := List.perm_middle
    -- done ++ k :: ks ~ k :: (done ++ ks)
      exact hperm.nodup hnd
    have hknotdone : k ∉ done := fun hmem =>
      (List.nodup_cons.mp hnd2).1 (List.mem_append_left ks hmem)
    have hnddone : (k :: done).Nodup := by
      refine List.nodup_cons.mpr ⟨hknotdone, ?_⟩
      exact ((List.nodup_append.mp (List.nodup_cons.mp hnd2).2).1)
    have hcover : ((∀ i, i < expected_index_count sz → i ∈ k :: done) ↔
        done.length + 1 = expected_index_count sz) := by
      have := mem_all_iff_length (expected_index_count sz) (k :: done) hnddone
        (by
          intro i hi
          rcases List.mem_cons.mp hi with h | h
          · subst h; exact hk
          · exact hdone i h)
      simpa using this
    have hstat : (mcan_unpack_msg sz (g k) b).1 =
        if done.length + 1 = expected_index_count sz then Status.OK else Status.Cancelled := by
      by_cases hc : done.length + 1 = expected_index_count sz
      · rw [if_pos hc]
        exact hstep.2.1.mpr (hcover.mpr hc)
      · rw [if_neg hc]
        rcases hstep.2.2 with h | h
        · exact absurd (hcover.mp (hstep.2.1.mp h)) hc
        · exact h
    have hrec := ih (k :: done) (mcan_unpack_msg sz (g k) b).2
      (fun x hx => hks x (List.mem_cons_of_mem k hx))
      (fun i hi => by
        rcases List.mem_cons.mp hi with h | h
        · subst h; exact hk
        · exact hdone i h)
      hnd2 hstep.1
    constructor
    · show (mcan_unpack_msg sz (g k) b).1 ::
        (mcan_unpack_stream sz (mcan_unpack_msg sz (g k) b).2 (ks.map g)).1 = _
      rw [hrec.1, hstat]
      simp only [List.length_cons, List.range_succ_eq_map, List.map_cons, List.map_map]
      refine congrArg₂ List.cons (if_congr (by omega) rfl rfl) ?_
      refine List.map_congr_left fun m _ => ?_
      simp only [Function.comp_apply]
      refine if_congr (by omega) rfl rfl
    · show BufInv sz v ((k :: ks).reverse ++ done)
        (mcan_unpack_stream sz (mcan_unpack_msg sz (g k) b).2 (ks.map g)).2
      refine BufInv_congr sz v (ks.reverse ++ (k :: done)) _ _ (fun i => ?_) hrec.2
      simp [List.mem_append, List.mem_cons, List.mem_reverse]

/-- Round trip into an empty buffer: delivering the emitted segment
frames of a record with at most 256 segments, each exactly once in any
order, reports Cancelled on every call but the last, OK on the last, and
reconstructs the record bytes. -/
theorem roundtrip_from_empty (k_base_address node_id sz : Nat) (v buf0 : Nat → Nat)
    (b : CanMultiPackageFrame) (ks : List Nat) (hsz : 8 < sz)
    (h256 : expected_index_count sz ≤ 256) (hb : BufInv sz v [] b)
    (hperm : ks.Perm (List.range (expected_index_count sz))) :
    (mcan_unpack_stream sz b
        (ks.map (fun k =>
          (mcan_packed_frames k_base_address node_id sz v buf0).getD k default_frame))).1 =
      (List.range (expected_index_count sz)).map
        (fun m => if m + 1 = expected_index_count sz then Status.OK else Status.Cancelled) ∧
    (∀ p, p < sz →
      (mcan_unpack_stream sz b
        (ks.map (fun k =>
          (mcan_packed_frames k_base_address node_id sz v buf0).getD k default_frame))).2.value
        p = v p) := by
  have hbounds := expected_index_count_bounds sz (by omega)
  have hg : ∀ k, k < expected_index_count sz →
      ((mcan_packed_frames k_base_address node_id sz v buf0).getD k default_frame).size =
        (if k = expected_index_count sz - 1 then (sz - k * 7) + 1 else 8) ∧
      ((mcan_packed_frames k_base_address node_id sz v buf0).getD k default_frame).data 0 =
        k % 256 ∧
      (∀ j, j < ((mcan_packed_frames k_base_address node_id sz v buf0).getD k
          default_frame).size - 1 →
        ((mcan_packed_frames k_base_address node_id sz v buf0).getD k default_frame).data
          (1 + j) = v (k * 7 + j)) := by
    intro k hk
    obtain ⟨-, -, -, hsize, hd0, hdata⟩ := packed_frames_getD k_base_address node_id sz v buf0
      k hsz hk
    exact ⟨hsize, hd0, hdata⟩
  have hksnodup : ks.Nodup := hperm.symm.nodup (List.nodup_range _)
  have hksmem : ∀ k ∈ ks, k < expected_index_count sz := by
    intro k hkmem
    have := hperm.mem_iff.mp hkmem
    exact List.mem_range.mp this
  have hspec := unpack_stream_spec sz v
    (fun k => (mcan_packed_frames k_base_address node_id sz v buf0).getD k default_frame)
    hsz h256 hg ks [] b hksmem (by simp) (by simpa using hksnodup) hb
  have hlen : ks.length = expected_index_count sz := by
    rw [hperm.length_eq, List.length_range]
  refine ⟨?_, ?_⟩
  · rw [hspec.1, hlen]
    simp only [List.length_nil, Nat.zero_add]
  · intro p hp
    have hmem : p / 7 ∈ ks.reverse ++ ([] : List Nat) := by
      rw [List.append_nil, List.mem_reverse]
      exact hperm.mem_iff.mpr (List.mem_range.mpr (by omega))
    rw [hspec.2.2 p, if_pos ⟨hp, hmem⟩]

/-- For a record with more than 256 expected segments, no frame whose
index byte is a real byte (< 256) can ever set received bit 256, so the
reassembler never reports completion. -/
theorem unpack_never_completes (sz : Nat) (hsz : 8 < sz)
    (hbig : 256 < expected_index_count sz) :
    ∀ (ds : List CanFrame) (b : CanMultiPackageFrame),
      (∀ f ∈ ds, f.data 0 < 256) → b.received 256 = false →
      Status.OK ∉ (mcan_unpack_stream sz b ds).1 ∧
      (mcan_unpack_stream sz b ds).2.received 256 = false := by
  intro ds
  induction ds with
  | nil =>
    intro b _ hb
    exact ⟨by simp [mcan_unpack_stream], hb⟩
  | cons f fs ih =>
    intro b h hb
    have hf : f.data 0 < 256 := h f (List.mem_cons_self f fs)
    have hstep : (mcan_unpack_msg sz f b).1 ≠ Status.OK ∧
        (mcan_unpack_msg sz f b).2.received 256 = false := by
      rw [mcan_unpack_msg, if_neg (by omega : ¬ sz ≤ 8), if_neg (by omega)]
      have hrec : bitset_set b.received (f.data 0) 256 = false := by
        rw [bitset_set, if_neg (by omega)]
        exact hb
      have hall : bitset_all (expected_index_count sz) (bitset_set b.received (f.data 0)) =
          false := by
        rw [bitset_all, List.all_eq_false]
        exact ⟨256, List.mem_range.mpr (by omega), by simp [hrec]⟩
      simp only [hall, Bool.false_eq_true, if_false]
      exact ⟨fun hc => Status.noConfusion hc, hrec⟩
    have hrest := ih (mcan_unpack_msg sz f b).2
      (fun g hg => h g (List.mem_cons_of_mem f hg)) hstep.2
    refine ⟨?_, hrest.2⟩
    show Status.OK ∉ (mcan_unpack_msg sz f b).1 ::
      (mcan_unpack_stream sz (mcan_unpack_msg sz f b).2 fs).1
    rw [List.mem_cons]
    rintro (hc | hc)
    · exact hstep.1 hc.symm
    · exact hrest.1 hc

/-! ### C1: multi-segment round trip -/

/-- C1 (amended: restricted to records of at most 256 segments, sz ≤
1792, where the one-byte segment index is faithful): mcan_pack_send_msg
produces ceil(sz / 7) frames, and feeding them from any permutation into
a fresh zeroed buffer makes mcan_unpack_msg report Cancelled on every
call but the last and OK exactly on the last delivered segment, after
which the reconstructed bytes equal the record bytes. -/
theorem roundtrip_multi_any_order (k_base_address node_id sz : Nat) (v buf0 : Nat → Nat)
    (ks : List Nat) (hsz : 8 < sz) (hbound : sz ≤ 1792)
    (hperm : ks.Perm (List.range (expected_index_count sz))) :
    (mcan_packed_frames k_base_address node_id sz v buf0).length = (sz + 6) / 7 ∧
    (mcan_unpack_stream sz zero_package
        (ks.map (fun k =>
          (mcan_packed_frames k_base_address node_id sz v buf0).getD k default_frame))).1 =
      (List.range (expected_index_count sz)).map
        (fun m => if m + 1 = expected_index_count sz then Status.OK else Status.Cancelled) ∧
    (∀ p, p < sz →
      (mcan_unpack_stream sz zero_package
        (ks.map (fun k =>
          (mcan_packed_frames k_base_address node_id sz v buf0).getD k default_frame))).2.value
        p = v p) := by
  have h256 : expected_index_count sz ≤ 256 := by
    rw [expected_index_count_eq]
    omega
  have hrt := roundtrip_from_empty k_base_address node_id sz v buf0 zero_package ks hsz h256
    (BufInv_zero sz v) hperm
  refine ⟨?_, hrt.1, hrt.2⟩
  rw [packed_frames_length _ _ _ _ _ hsz, expected_index_count_eq]

/-- Witness for C1 at a 9-byte record delivered in reverse order. -/
theorem roundtrip_multi_any_order_witness :
    8 < 9 ∧ 9 ≤ 1792 ∧ [1, 0].Perm (List.range (expected_index_count 9)) ∧
    ((mcan_packed_frames 1 2 9 (fun p => p + 3) (fun _ => 0)).length = (9 + 6) / 7 ∧
     (mcan_unpack_stream 9 zero_package
        ([1, 0].map (fun k =>
          (mcan_packed_frames 1 2 9 (fun p => p + 3) (fun _ => 0)).getD k default_frame))).1 =
       (List.range (expected_index_count 9)).map
         (fun m => if m + 1 = expected_index_count 9 then Status.OK else Status.Cancelled) ∧
     (∀ p, p < 9 →
       (mcan_unpack_stream 9 zero_package
        ([1, 0].map (fun k =>
          (mcan_packed_frames 1 2 9 (fun p => p + 3) (fun _ => 0)).getD k
            default_frame))).2.value p = p + 3)) :=
  ⟨by decide, by decide, by decide,
    roundtrip_multi_any_order 1 2 9 (fun p => p + 3) (fun _ => 0) [1, 0]
      (by decide) (by decide) (by decide)⟩

/-- C1 counterexample: at the accepted record size 1793 (257 segments)
the claim fails: the segmenter produces its 257 frames, yet delivering
all of them, in order, to a fresh zeroed buffer never reports OK — in
particular the last delivered segment does not report completion. -/
theorem roundtrip_multi_sz1793_incomplete :
    8 < 1793 ∧
    (mcan_packed_frames 3 2 1793 (fun p => p % 256) (fun _ => 0)).length = 257 ∧
    Status.OK ∉ (mcan_unpack_stream 1793 zero_package
      (mcan_packed_frames 3 2 1793 (fun p => p % 256) (fun _ => 0))).1 := by
  have h257 : expected_index_count 1793 = 257 := by
    rw [expected_index_count_eq]
  have hlen := packed_frames_length 3 2 1793 (fun p => p % 256) (fun _ => 0) (by norm_num)
  have hnc := unpack_never_completes 1793 (by norm_num) (by omega)
    (mcan_packed_frames 3 2 1793 (fun p => p % 256) (fun _ => 0)) zero_package
    (packed_frames_mem_data0_lt 3 2 1793 (fun p => p % 256) (fun _ => 0) (by norm_num))
    rfl
  exact ⟨by norm_num, by omega, hnc.1⟩

/-! ### C5: out-of-range index resets the buffer -/

/-- C5: for a multi-segment record, a frame whose index byte is at least
the expected segment count makes mcan_unpack_msg clear every received
bit, zero the value, and report Invalid, and from that reset state a
fresh complete delivery of the emitted segments of any record value, in
any order, completes exactly on the last segment and reconstructs the
value from zero.  Because the index byte is a byte, such a frame exists
only when the expected segment count is below 256, so the record is
within the faithful range. -/
theorem unpack_out_of_range_resets (sz : Nat) (f : CanFrame) (b : CanMultiPackageFrame)
    (hsz : 8 < sz) (hbyte : f.data 0 < 256)
    (hidx : expected_index_count sz ≤ f.data 0) :
    mcan_unpack_msg sz f b =
      (Status.Invalid, { value := fun _ => 0, received := bitset_reset }) ∧
    (∀ i, (mcan_unpack_msg sz f b).2.received i = false) ∧
    (∀ p, (mcan_unpack_msg sz f b).2.value p = 0) ∧
    (∀ (w buf0 : Nat → Nat) (k_base_address node_id : Nat) (ks : List Nat),
      ks.Perm (List.range (expected_index_count sz)) →
      (mcan_unpack_stream sz (mcan_unpack_msg sz f b).2
          (ks.map (fun k =>
            (mcan_packed_frames k_base_address node_id sz w buf0).getD k default_frame))).1 =
        (List.range (expected_index_count sz)).map
          (fun m => if m + 1 = expected_index_count sz then Status.OK else Status.Cancelled) ∧
      (∀ p, p < sz →
        (mcan_unpack_stream sz (mcan_unpack_msg sz f b).2
          (ks.map (fun k =>
            (mcan_packed_frames k_base_address node_id sz w buf0).getD k
              default_frame))).2.value p = w p)) := by
  have hreset : mcan_unpack_msg sz f b =
      (Status.Invalid, { value := fun _ => 0, received := bitset_reset }) := by
    rw [mcan_unpack_msg, if_neg (by omega : ¬ sz ≤ 8), if_pos (by omega)]
  have h256 : expected_index_count sz ≤ 256 := by omega
  refine ⟨hreset, ?_, ?_, ?_⟩
  · intro i
    rw [hreset]
    rfl
  · intro p
    rw [hreset]
  · intro w buf0 k_base_address node_id ks hperm
    rw [hreset]
    exact roundtrip_from_empty k_base_address node_id sz w buf0 _ ks hsz h256
      (BufInv_reset sz w) hperm

/-- Witness for C5 at a 9-byte record and a frame with index byte 5 ≥ 2
expected segments. -/
theorem unpack_out_of_range_resets_witness :
    8 < 9 ∧ (5 : Nat) < 256 ∧ expected_index_count 9 ≤ 5 ∧
    (mcan_unpack_msg 9 (⟨0, 8, fun _ => 5, false, true⟩ : CanFrame)
        { value := fun p => p + 1, received := fun i => decide (i = 0) } =
      (Status.Invalid, { value := fun _ => 0, received := bitset_reset }) ∧
     (∀ i, (mcan_unpack_msg 9 (⟨0, 8, fun _ => 5, false, true⟩ : CanFrame)
        { value := fun p => p + 1, received := fun i => decide (i = 0) }).2.received i =
        false) ∧
     (∀ p, (mcan_unpack_msg 9 (⟨0, 8, fun _ => 5, false, true⟩ : CanFrame)
        { value := fun p => p + 1, received := fun i => decide (i = 0) }).2.value p = 0) ∧
     (∀ (w buf0 : Nat → Nat) (k_base_address node_id : Nat) (ks : List Nat),
      ks.Perm (List.range (expected_index_count 9)) →
      (mcan_unpack_stream 9 (mcan_unpack_msg 9 (⟨0, 8, fun _ => 5, false, true⟩ : CanFrame)
          { value := fun p => p + 1, received := fun i => decide (i = 0) }).2
          (ks.map (fun k =>
            (mcan_packed_frames k_base_address node_id 9 w buf0).getD k default_frame))).1 =
        (List.range (expected_index_count 9)).map
          (fun m => if m + 1 = expected_index_count 9 then Status.OK else Status.Cancelled) ∧
      (∀ p, p < 9 →
        (mcan_unpack_stream 9 (mcan_unpack_msg 9 (⟨0, 8, fun _ => 5, false, true⟩ : CanFrame)
          { value := fun p => p + 1, received := fun i => decide (i = 0) }).2
          (ks.map (fun k =>
            (mcan_packed_frames k_base_address node_id 9 w buf0).getD k
              default_frame))).2.value p = w p))) :=
  ⟨by decide, by decide, by decide,
    unpack_out_of_range_resets 9 (⟨0, 8, fun _ => 5, false, true⟩ : CanFrame)
      { value := fun p => p + 1, received := fun i => decide (i = 0) }
      (by decide) (by decide) (by decide)⟩

/-! ### C8: redelivery idempotence -/

/-- C8: redelivering a well-formed segment whose received bit is already
set and whose payload bytes equal the bytes previously written for that
index leaves the buffer unchanged (value and bitset), and the call
reports OK exactly when the buffer already reported complete, otherwise
Cancelled. -/
theorem unpack_redelivery_idempotent (sz : Nat) (f : CanFrame) (b : CanMultiPackageFrame)
    (hsz : 8 < sz) (hfs1 : 1 ≤ f.size) (hfs8 : f.size ≤ 8)
    (hidx : f.data 0 < expected_index_count sz)
    (hset : b.received (f.data 0) = true)
    (hbytes : ∀ j, j < f.size - 1 → f.data (1 + j) = b.value (f.data 0 * 7 + j)) :
    (mcan_unpack_msg sz f b).2 = b ∧
    ((mcan_unpack_msg sz f b).1 = Status.OK ↔
      bitset_all (expected_index_count sz) b.received = true) ∧
    ((mcan_unpack_msg sz f b).1 = Status.OK ∨ (mcan_unpack_msg sz f b).1 = Status.Cancelled) := by
  have hds : mcan_unpack_data_size f.size = f.size - 1 :=
    unpack_data_size_eq _ hfs1 (by omega)
  have hvals : memcpy b.value (f.data 0 * 7) f.data 1 (f.size - 1) = b.value := by
    funext p
    rw [memcpy]
    split
    · next hreg =>
      rw [hbytes (p - f.data 0 * 7) (by omega),
        show f.data 0 * 7 + (p - f.data 0 * 7) = p by omega]
    · rfl
  have hrecs : bitset_set b.received (f.data 0) = b.received := by
    funext i
    rw [bitset_set]
    split
    · next hik =>
      rw [hik]
      exact hset.symm
    · rfl
  have hunf : mcan_unpack_msg sz f b =
      (if bitset_all (expected_index_count sz) b.received then Status.OK
        else Status.Cancelled, b) := by
    rw [mcan_unpack_msg, if_neg (by omega : ¬ sz ≤ 8), if_neg (by omega)]
    simp only [hds, hvals, hrecs]
    split <;> rfl
  have h1 : (mcan_unpack_msg sz f b).1 =
      if bitset_all (expected_index_count sz) b.received then Status.OK
        else Status.Cancelled := by
    rw [hunf]
  have h2 : (mcan_unpack_msg sz f b).2 = b := by
    rw [hunf]
  refine ⟨h2, ?_, ?_⟩
  · rw [h1]
    by_cases hall : bitset_all (expected_index_count sz) b.received = true
    · simp [hall]
    · simp [hall]
  · rw [h1]
    split
    · exact Or.inl rfl
    · exact Or.inr rfl

/-- Witness for C8 at a 9-byte record whose segment 0 was already
received. -/
theorem unpack_redelivery_idempotent_witness :
    8 < 9 ∧ 1 ≤ (8 : Nat) ∧ (8 : Nat) ≤ 8 ∧ 0 < expected_index_count 9 ∧
    ((fun i => decide (i = 0)) 0 = true) ∧
    (∀ j, j < 8 - 1 →
      (fun p : Nat => p) (1 + j) =
        (fun p : Nat => if p < 7 then p + 1 else 0) (0 * 7 + j)) ∧
    ((mcan_unpack_msg 9 (⟨0, 8, fun p => p, false, true⟩ : CanFrame)
        { value := fun p => if p < 7 then p + 1 else 0, received := fun i => decide (i = 0) }).2 =
      { value := fun p => if p < 7 then p + 1 else 0, received := fun i => decide (i = 0) } ∧
     ((mcan_unpack_msg 9 (⟨0, 8, fun p => p, false, true⟩ : CanFrame)
        { value := fun p => if p < 7 then p + 1 else 0,
          received := fun i => decide (i = 0) }).1 = Status.OK ↔
       bitset_all (expected_index_count 9) (fun i => decide (i = 0)) = true) ∧
     ((mcan_unpack_msg 9 (⟨0, 8, fun p => p, false, true⟩ : CanFrame)
        { value := fun p => if p < 7 then p + 1 else 0,
          received := fun i => decide (i = 0) }).1 = Status.OK ∨
      (mcan_unpack_msg 9 (⟨0, 8, fun p => p, false, true⟩ : CanFrame)
        { value := fun p => if p < 7 then p + 1 else 0,
          received := fun i => decide (i = 0) }).1 = Status.Cancelled)) :=
  ⟨by decide, by decide, by decide, by decide, by decide,
    by decide,
    unpack_redelivery_idempotent 9 (⟨0, 8, fun p => p, false, true⟩ : CanFrame)
      { value := fun p => if p < 7 then p + 1 else 0, received := fun i => decide (i = 0) }
      (by decide) (by decide) (by decide) (by decide) (by decide) (by decide)⟩

/-! ### C10: unchecked copy length in the multi-segment receive path -/

/-- C10: in the multi-segment branch, for an in-range index the receiver
copies mcan_unpack_data_size frame.size = frame.size - 1 (wrapping to
2 ^ 64 - 1 for frame.size = 0) payload bytes to offset index*7 with no
check against the expected segment length; every write position stays
below sizeof(Record) precisely when 1 ≤ frame.size and
index*7 + (frame.size - 1) ≤ sizeof(Record). -/
theorem unpack_unchecked_copy_bounds (sz : Nat) (f : CanFrame) (b : CanMultiPackageFrame)
    (hsz : 8 < sz) (hmax : sz ≤ MAX_STRUCT_SIZE)
    (hidx : f.data 0 < expected_index_count sz) (hfs : f.size ≤ 255) :
    mcan_unpack_data_size 0 = 2 ^ 64 - 1 ∧
    (1 ≤ f.size → mcan_unpack_data_size f.size = f.size - 1) ∧
    (∀ p, (mcan_unpack_msg sz f b).2.value p =
      if f.data 0 * 7 ≤ p ∧ p < f.data 0 * 7 + mcan_unpack_data_size f.size
        then f.data (1 + (p - f.data 0 * 7)) else b.value p) ∧
    ((∀ p, f.data 0 * 7 ≤ p → p < f.data 0 * 7 + mcan_unpack_data_size f.size → p < sz) ↔
      (1 ≤ f.size ∧ f.data 0 * 7 + (f.size - 1) ≤ sz)) := by
  have hbounds := expected_index_count_bounds sz (by omega)
  have hmax2 : sz ≤ 16320 := by
    rw [MAX_STRUCT_SIZE] at hmax
    exact hmax
  have hstart : f.data 0 * 7 < sz := by omega
  have hpow : (2 : Nat) ^ 64 - 1 = 18446744073709551615 := by norm_num
  have hunf2 : (mcan_unpack_msg sz f b).2 =
      { value := memcpy b.value (f.data 0 * 7) f.data 1 (mcan_unpack_data_size f.size),
        received := bitset_set b.received (f.data 0) } := by
    rw [mcan_unpack_msg, if_neg (by omega : ¬ sz ≤ 8), if_neg (by omega)]
    by_cases hc : bitset_all (expected_index_count sz) (bitset_set b.received (f.data 0)) = true
    · simp only [hc, if_true]
    · simp only [hc]
      rfl
  refine ⟨unpack_data_size_zero, fun h1 => unpack_data_size_eq _ h1 hfs, ?_, ?_⟩
  · intro p
    rw [hunf2]
    rfl
  · constructor
    · intro h
      have hsz1 : 1 ≤ f.size := by
        by_contra hc
        have h0 : f.size = 0 := by omega
        have hds0 : mcan_unpack_data_size f.size = 18446744073709551615 := by
          rw [h0, unpack_data_size_zero, hpow]
        have := h sz (by omega) (by omega)
        omega
      refine ⟨hsz1, ?_⟩
      have hds := unpack_data_size_eq _ hsz1 hfs
      by_cases hone : f.size = 1
      · rw [hone]
        omega
      · have := h (f.data 0 * 7 + (f.size - 1) - 1) (by omega) (by omega)
        omega
    · rintro ⟨hone, hle⟩ p hp1 hp2
      rw [unpack_data_size_eq _ hone hfs] at hp2
      omega

/-- Witness for C10 at a 9-byte record and a zero-size frame. -/
theorem unpack_unchecked_copy_bounds_witness :
    8 < 9 ∧ 9 ≤ MAX_STRUCT_SIZE ∧
    (⟨0, 0, fun _ => 0, false, true⟩ : CanFrame).data 0 < expected_index_count 9 ∧
    (⟨0, 0, fun _ => 0, false, true⟩ : CanFrame).size ≤ 255 ∧
    (mcan_unpack_data_size 0 = 2 ^ 64 - 1 ∧
     (1 ≤ (⟨0, 0, fun _ => 0, false, true⟩ : CanFrame).size →
       mcan_unpack_data_size (⟨0, 0, fun _ => 0, false, true⟩ : CanFrame).size =
         (⟨0, 0, fun _ => 0, false, true⟩ : CanFrame).size - 1) ∧
     (∀ p, (mcan_unpack_msg 9 (⟨0, 0, fun _ => 0, false, true⟩ : CanFrame)
          zero_package).2.value p =
       if (⟨0, 0, fun _ => 0, false, true⟩ : CanFrame).data 0 * 7 ≤ p ∧
           p < (⟨0, 0, fun _ => 0, false, true⟩ : CanFrame).data 0 * 7 +
             mcan_unpack_data_size (⟨0, 0, fun _ => 0, false, true⟩ : CanFrame).size
         then (⟨0, 0, fun _ => 0, false, true⟩ : CanFrame).data
           (1 + (p - (⟨0, 0, fun _ => 0, false, true⟩ : CanFrame).data 0 * 7))
         else zero_package.value p) ∧
     ((∀ p, (⟨0, 0, fun _ => 0, false, true⟩ : CanFrame).data 0 * 7 ≤ p →
        p < (⟨0, 0, fun _ => 0, false, true⟩ : CanFrame).data 0 * 7 +
          mcan_unpack_data_size (⟨0, 0, fun _ => 0, false, true⟩ : CanFrame).size → p < 9) ↔
       (1 ≤ (⟨0, 0, fun _ => 0, false, true⟩ : CanFrame).size ∧
        (⟨0, 0, fun _ => 0, false, true⟩ : CanFrame).data 0 * 7 +
          ((⟨0, 0, fun _ => 0, false, true⟩ : CanFrame).size - 1) ≤ 9))) :=
  ⟨by decide, by decide, by decide, by decide,
    unpack_unchecked_copy_bounds 9 (⟨0, 0, fun _ => 0, false, true⟩ : CanFrame) zero_package
      (by decide) (by decide) (by decide) (by decide)⟩

end mcan
